import Mathlib

/-!
Verification of the airq core algorithms (src/app/airq/commands/quality.py and
src/app/airq/lib/client_preferences.py) against their specification.

Conventions of the shallow embedding:
- Python floats are embedded as rationals.
- A Python dict with int keys is embedded as an association list kept in
  insertion order; assignment updates in place when the key is present and
  appends otherwise, exactly as CPython dicts behave.
- The database of zip code rows is a list of records; a SQLAlchemy query is
  a filter over that list.
- The haversine distance lives in airq/lib/geo.py, which is outside the
  given sources; the search is therefore parameterised by an arbitrary
  distance function hav, applied with the argument order of the call site
  (match longitude, match latitude, target longitude, target latitude).
-/

namespace Airq

/-- Get readings for zipcodes within 150 km of the target zipcode
(quality.py line 35). -/
def MAX_NEARBY_ZIPCODE_RADIUS_KM : ℚ := 150

/-- Try to get readings for up to 200 zipcodes near the target zipcode
(quality.py line 38). -/
def MAX_NUM_NEARBY_ZIPCODES : Nat := 200

/-- A row of the zipcodes table as used by _get_nearby_zipcodes: id,
latitude, longitude and the geohash string (stored as the columns
geohash_bit_1, geohash_bit_2, ...). -/
structure Zipcode where
  id : Nat
  latitude : ℚ
  longitude : ℚ
  geohash : List Char
deriving DecidableEq, Repr

/-- Keys of an embedded Python dict in insertion order. -/
def dictKeys {α : Type} (m : List (Nat × α)) : List Nat := m.map Prod.fst

/-- Python dict assignment d[k] = v: update in place when the key exists,
append otherwise. -/
def dictInsert {α : Type} (m : List (Nat × α)) (k : Nat) (v : α) :
    List (Nat × α) :=
  if k ∈ dictKeys m then m.map (fun p => if p.1 = k then (k, v) else p)
  else m ++ [(k, v)]

/-- Python dict lookup d.get(k). -/
def dictLookup {α : Type} (m : List (Nat × α)) (k : Nat) : Option α :=
  (m.find? (fun p => p.1 == k)).map Prod.snd

/-- The query of quality.py lines 161-168: all zipcode rows whose geohash
starts with the current geohash character list (one geohash_bit_i == c
filter per character), minus already collected ids; the exclusion filter
is only applied when the collected map is non-empty, as in the source. -/
def levelQuery (db : List Zipcode) (gh : List Char) (m : List (Nat × ℚ)) :
    List Zipcode :=
  if m = [] then db.filter (fun z => gh.isPrefixOf z.geohash)
  else db.filter (fun z => gh.isPrefixOf z.geohash && !(z.id ∈ dictKeys m))

/-- The list built on quality.py lines 170-178: pair each query row with its
haversine distance to the target centroid, keeping the call site argument
order haversine_distance(r[2], r[1], zipcode.longitude, zipcode.latitude). -/
def levelPairs (hav : ℚ → ℚ → ℚ → ℚ → ℚ) (db : List Zipcode) (tgt : Zipcode)
    (gh : List Char) (m : List (Nat × ℚ)) : List (Nat × ℚ) :=
  (levelQuery db gh m).map
    (fun r => (r.id, hav r.longitude r.latitude tgt.longitude tgt.latitude))

/-- Comparison by distance, the sort key of quality.py line 179. -/
def distLe (a b : Nat × ℚ) : Prop := a.2 ≤ b.2

instance : DecidableRel distLe :=
  fun a b => inferInstanceAs (Decidable (a.2 ≤ b.2))

instance : IsTotal (Nat × ℚ) distLe := ⟨fun a b => le_total a.2 b.2⟩

instance : IsTrans (Nat × ℚ) distLe := ⟨fun _ _ _ => le_trans⟩

/-- The sorted iteration order of quality.py lines 169-180: the distance
pairs sorted ascending by distance. Python sorted is a stable sort, and a
stable sort for a given total preorder has a unique result, so the stable
insertionSort is a faithful embedding of it. -/
def levelBatch (hav : ℚ → ℚ → ℚ → ℚ → ℚ) (db : List Zipcode) (tgt : Zipcode)
    (gh : List Char) (m : List (Nat × ℚ)) : List (Nat × ℚ) :=
  List.insertionSort distLe (levelPairs hav db tgt gh m)

/-- The body of the for loop on quality.py lines 169-184: for each pair in
order, add it to the map when its distance is within the radius, and stop
with True (the early return) as soon as the map has reached the cap; False
means the whole batch was consumed without reaching the cap. -/
def processBatch (m : List (Nat × ℚ)) : List (Nat × ℚ) → List (Nat × ℚ) × Bool
  | [] => (m, false)
  | (zid, d) :: rest =>
    let m1 := if d ≤ MAX_NEARBY_ZIPCODE_RADIUS_KM then dictInsert m zid d else m
    if MAX_NUM_NEARBY_ZIPCODES ≤ m1.length then (m1, true)
    else processBatch m1 rest

/-- How many pairs of a batch the for loop examines before stopping. -/
def processBatchConsumed (m : List (Nat × ℚ)) : List (Nat × ℚ) → Nat
  | [] => 0
  | (zid, d) :: rest =>
    let m1 := if d ≤ MAX_NEARBY_ZIPCODE_RADIUS_KM then dictInsert m zid d else m
    if MAX_NUM_NEARBY_ZIPCODES ≤ m1.length then 1
    else 1 + processBatchConsumed m1 rest

/-- The while loop of quality.py lines 160-186: process one geohash level,
return early when the cap was hit, otherwise drop the last geohash
character (gh.pop()) and continue; the loop exits when gh is empty. -/
def searchLoop (hav : ℚ → ℚ → ℚ → ℚ → ℚ) (db : List Zipcode) (tgt : Zipcode)
    (gh : List Char) (m : List (Nat × ℚ)) : List (Nat × ℚ) :=
  if h : gh = [] then m
  else
    let res := processBatch m (levelBatch hav db tgt gh m)
    if res.2 then res.1
    else searchLoop hav db tgt gh.dropLast res.1
termination_by gh.length
decreasing_by
  simp only [List.length_dropLast]
  have : gh.length ≠ 0 := fun hc => h (List.length_eq_zero.mp hc)
  omega

/-- Number of outer iterations the while loop performs. -/
def searchLoopIters (hav : ℚ → ℚ → ℚ → ℚ → ℚ) (db : List Zipcode)
    (tgt : Zipcode) (gh : List Char) (m : List (Nat × ℚ)) : Nat :=
  if h : gh = [] then 0
  else
    let res := processBatch m (levelBatch hav db tgt gh m)
    if res.2 then 1
    else 1 + searchLoopIters hav db tgt gh.dropLast res.1
termination_by gh.length
decreasing_by
  simp only [List.length_dropLast]
  have : gh.length ≠ 0 := fun hc => h (List.length_eq_zero.mp hc)
  omega

/-- _get_nearby_zipcodes (quality.py lines 155-187): seed the map with the
target at distance 0 and run the shrinking-geohash loop. -/
def get_nearby_zipcodes (hav : ℚ → ℚ → ℚ → ℚ → ℚ) (db : List Zipcode)
    (tgt : Zipcode) : List (Nat × ℚ) :=
  searchLoop hav db tgt tgt.geohash (dictInsert [] tgt.id 0)

/-! Helper lemmas about the embedded dict operations. -/

theorem dictKeys_dictInsert {α : Type} (m : List (Nat × α)) (k : Nat) (v : α) :
    dictKeys (dictInsert m k v) =
      if k ∈ dictKeys m then dictKeys m else dictKeys m ++ [k] := by
  unfold dictInsert
  split
  · simp only [dictKeys, List.map_map]
    congr 1
    funext p
    by_cases hp : p.1 = k <;> simp [hp]
  · simp [dictKeys]

theorem length_dictInsert {α : Type} (m : List (Nat × α)) (k : Nat) (v : α) :
    (dictInsert m k v).length ≤ m.length + 1 := by
  unfold dictInsert
  split <;> simp

theorem mem_dictInsert {α : Type} (p : Nat × α) (m : List (Nat × α)) (k : Nat) (v : α)
    (h : p ∈ dictInsert m k v) : p = (k, v) ∨ p ∈ m := by
  unfold dictInsert at h
  split at h
  · rcases List.mem_map.mp h with ⟨q, hq, hqe⟩
    by_cases hqk : q.1 = k
    · simp [hqk] at hqe; left; exact hqe.symm
    · simp [hqk] at hqe; right; exact hqe ▸ hq
  · rcases List.mem_append.mp h with h1 | h1
    · right; exact h1
    · left; simpa using h1

theorem dictLookup_nil {α : Type} (k : Nat) :
    dictLookup ([] : List (Nat × α)) k = none := rfl

theorem dictLookup_cons {α : Type} (a : Nat × α) (m : List (Nat × α)) (k : Nat) :
    dictLookup (a :: m) k = if a.1 = k then some a.2 else dictLookup m k := by
  by_cases h : a.1 = k
  · unfold dictLookup
    rw [List.find?_cons_of_pos _ (by simp [h])]
    simp [h]
  · unfold dictLookup
    rw [List.find?_cons_of_neg _ (by simp [h])]
    simp [h]

theorem dictLookup_map_update {α : Type} (m : List (Nat × α)) (k k' : Nat) (v : α)
    (hne : k' ≠ k) :
    dictLookup (m.map fun p => if p.1 = k then (k, v) else p) k' =
      dictLookup m k' := by
  induction m with
  | nil => rfl
  | cons q rest ih =>
    simp only [List.map_cons]
    rw [dictLookup_cons, dictLookup_cons]
    by_cases hqk : q.1 = k
    · have h1 : (if q.1 = k then (k, v) else q) = (k, v) := by simp [hqk]
      rw [h1]
      have h2 : ¬((k, v).1 = k') := by simpa using (Ne.symm hne)
      have h3 : ¬(q.1 = k') := by rw [hqk]; simpa using (Ne.symm hne)
      rw [if_neg h2, if_neg h3]
      exact ih
    · have h1 : (if q.1 = k then (k, v) else q) = q := by simp [hqk]
      rw [h1]
      by_cases hq' : q.1 = k'
      · rw [if_pos hq', if_pos hq']
      · rw [if_neg hq', if_neg hq']
        exact ih

theorem dictLookup_append_single {α : Type} (m : List (Nat × α)) (k k' : Nat) (v : α)
    (hne : k' ≠ k) :
    dictLookup (m ++ [(k, v)]) k' = dictLookup m k' := by
  induction m with
  | nil =>
    simp only [List.nil_append]
    rw [dictLookup_cons]
    have h2 : ¬((k, v).1 = k') := by simpa using (Ne.symm hne)
    rw [if_neg h2]
  | cons q rest ih =>
    simp only [List.cons_append]
    rw [dictLookup_cons, dictLookup_cons]
    by_cases hq' : q.1 = k'
    · rw [if_pos hq', if_pos hq']
    · rw [if_neg hq', if_neg hq']
      exact ih

theorem dictLookup_dictInsert_ne {α : Type} (m : List (Nat × α)) (k k' : Nat) (v : α)
    (hne : k' ≠ k) : dictLookup (dictInsert m k v) k' = dictLookup m k' := by
  unfold dictInsert
  split
  · exact dictLookup_map_update m k k' v hne
  · exact dictLookup_append_single m k k' v hne

theorem dictLookup_isSome_iff_mem {α : Type} (m : List (Nat × α)) (k : Nat) :
    (dictLookup m k).isSome ↔ k ∈ dictKeys m := by
  induction m with
  | nil => simp [dictLookup_nil, dictKeys]
  | cons q rest ih =>
    rw [dictLookup_cons]
    by_cases hq : q.1 = k
    · simp [hq, dictKeys]
    · simp only [if_neg hq, dictKeys, List.map_cons, List.mem_cons]
      rw [ih]
      constructor
      · intro hmem; right; exact hmem
      · rintro (h1 | h1)
        · exact absurd h1.symm hq
        · exact h1

/-! Helper lemmas about processBatch. -/

theorem processBatch_length (l : List (Nat × ℚ)) :
    ∀ m : List (Nat × ℚ), m.length < MAX_NUM_NEARBY_ZIPCODES →
      (processBatch m l).1.length ≤ MAX_NUM_NEARBY_ZIPCODES ∧
        ((processBatch m l).2 = false →
          (processBatch m l).1.length < MAX_NUM_NEARBY_ZIPCODES) := by
  induction l with
  | nil => intro m hm; exact ⟨le_of_lt hm, fun _ => hm⟩
  | cons p rest ih =>
    intro m hm
    obtain ⟨zid, d⟩ := p
    simp only [processBatch]
    set m1 := if d ≤ MAX_NEARBY_ZIPCODE_RADIUS_KM then dictInsert m zid d else m
      with hm1
    have hm1len : m1.length ≤ m.length + 1 := by
      rw [hm1]; split
      · exact length_dictInsert m zid d
      · omega
    by_cases hcap : MAX_NUM_NEARBY_ZIPCODES ≤ m1.length
    · simp only [if_pos hcap]
      exact ⟨by omega, by simp⟩
    · simp only [if_neg hcap]
      exact ih m1 (by omega)

theorem processBatch_lookup (l : List (Nat × ℚ)) :
    ∀ (m : List (Nat × ℚ)) (key : Nat) (v : ℚ),
      (∀ p ∈ l, p.1 ≠ key) → dictLookup m key = some v →
        dictLookup (processBatch m l).1 key = some v := by
  induction l with
  | nil => intro m key v _ hv; exact hv
  | cons p rest ih =>
    intro m key v hall hv
    obtain ⟨zid, d⟩ := p
    have hzid : zid ≠ key := by
      have := hall (zid, d) (List.mem_cons_self _ _)
      simpa using this
    simp only [processBatch]
    set m1 := if d ≤ MAX_NEARBY_ZIPCODE_RADIUS_KM then dictInsert m zid d else m
      with hm1
    have hv1 : dictLookup m1 key = some v := by
      rw [hm1]; split
      · rw [dictLookup_dictInsert_ne m zid key d (Ne.symm hzid)]; exact hv
      · exact hv
    by_cases hcap : MAX_NUM_NEARBY_ZIPCODES ≤ m1.length
    · simpa [if_pos hcap] using hv1
    · simp only [if_neg hcap]
      exact ih m1 key v (fun q hq => hall q (List.mem_cons_of_mem _ hq)) hv1

theorem processBatch_preserves (P : Nat × ℚ → Prop)
    (hP : ∀ (k : Nat) (d : ℚ), d ≤ MAX_NEARBY_ZIPCODE_RADIUS_KM → P (k, d))
    (l : List (Nat × ℚ)) :
    ∀ m : List (Nat × ℚ), (∀ p ∈ m, P p) → ∀ p ∈ (processBatch m l).1, P p := by
  induction l with
  | nil => intro m hm; exact hm
  | cons q rest ih =>
    intro m hm
    obtain ⟨zid, d⟩ := q
    simp only [processBatch]
    set m1 := if d ≤ MAX_NEARBY_ZIPCODE_RADIUS_KM then dictInsert m zid d else m
      with hm1
    have hm1P : ∀ p ∈ m1, P p := by
      rw [hm1]; split
      · intro p hp
        rcases mem_dictInsert p m zid d hp with h1 | h1
        · subst h1
          exact hP zid d (by assumption)
        · exact hm p h1
      · exact hm
    by_cases hcap : MAX_NUM_NEARBY_ZIPCODES ≤ m1.length
    · simpa [if_pos hcap] using hm1P
    · simp only [if_neg hcap]
      exact ih m1 hm1P

/-! The loop invariant of the geohash search. -/

theorem levelBatch_keys_not_mem (hav : ℚ → ℚ → ℚ → ℚ → ℚ) (db : List Zipcode)
    (tgt : Zipcode) (gh : List Char) (m : List (Nat × ℚ)) (hm : m ≠ []) :
    ∀ p ∈ levelBatch hav db tgt gh m, p.1 ∉ dictKeys m := by
  intro p hp
  rw [levelBatch, List.mem_insertionSort, levelPairs, List.mem_map] at hp
  rcases hp with ⟨r, hr, hre⟩
  rw [levelQuery, if_neg hm, List.mem_filter] at hr
  have := hr.2
  simp only [Bool.and_eq_true, Bool.not_eq_true', decide_eq_false_iff_not] at this
  rw [← hre]
  exact this.2

theorem searchLoop_inv (hav : ℚ → ℚ → ℚ → ℚ → ℚ) (db : List Zipcode)
    (tgt : Zipcode) :
    ∀ (gh : List Char) (m : List (Nat × ℚ)),
      dictLookup m tgt.id = some 0 →
      (∀ p ∈ m, p.1 ≠ tgt.id → p.2 ≤ MAX_NEARBY_ZIPCODE_RADIUS_KM) →
      m.length < MAX_NUM_NEARBY_ZIPCODES →
      dictLookup (searchLoop hav db tgt gh m) tgt.id = some 0 ∧
        (∀ p ∈ searchLoop hav db tgt gh m,
          p.1 ≠ tgt.id → p.2 ≤ MAX_NEARBY_ZIPCODE_RADIUS_KM) ∧
        (searchLoop hav db tgt gh m).length ≤ MAX_NUM_NEARBY_ZIPCODES := by
  suffices H : ∀ (n : Nat) (gh : List Char), gh.length ≤ n →
      ∀ m : List (Nat × ℚ),
        dictLookup m tgt.id = some 0 →
        (∀ p ∈ m, p.1 ≠ tgt.id → p.2 ≤ MAX_NEARBY_ZIPCODE_RADIUS_KM) →
        m.length < MAX_NUM_NEARBY_ZIPCODES →
        dictLookup (searchLoop hav db tgt gh m) tgt.id = some 0 ∧
          (∀ p ∈ searchLoop hav db tgt gh m,
            p.1 ≠ tgt.id → p.2 ≤ MAX_NEARBY_ZIPCODE_RADIUS_KM) ∧
          (searchLoop hav db tgt gh m).length ≤ MAX_NUM_NEARBY_ZIPCODES by
    intro gh m h0 h1 h2
    exact H gh.length gh le_rfl m h0 h1 h2
  intro n
  induction n with
  | zero =>
    intro gh hlen m h0 h1 h2
    have hgh : gh = [] := List.length_eq_zero.mp (Nat.le_zero.mp hlen)
    subst hgh
    rw [searchLoop, dif_pos rfl]
    exact ⟨h0, h1, le_of_lt h2⟩
  | succ n ih =>
    intro gh hlen m h0 h1 h2
    by_cases hgh : gh = []
    · subst hgh
      rw [searchLoop, dif_pos rfl]
      exact ⟨h0, h1, le_of_lt h2⟩
    · rw [searchLoop, dif_neg hgh]
      have hmne : m ≠ [] := by
        intro hc
        subst hc
        rw [dictLookup_nil] at h0
        exact Option.noConfusion h0
      have hkeys := levelBatch_keys_not_mem hav db tgt gh m hmne
      have htgtmem : tgt.id ∈ dictKeys m :=
        (dictLookup_isSome_iff_mem m tgt.id).mp (by rw [h0]; rfl)
      have hne : ∀ p ∈ levelBatch hav db tgt gh m, p.1 ≠ tgt.id :=
        fun p hp hc => hkeys p hp (hc ▸ htgtmem)
      have hlook := processBatch_lookup (levelBatch hav db tgt gh m) m tgt.id 0
        hne h0
      have hpres := processBatch_preserves
        (fun p => p.1 ≠ tgt.id → p.2 ≤ MAX_NEARBY_ZIPCODE_RADIUS_KM)
        (fun _ d hd _ => hd) (levelBatch hav db tgt gh m) m h1
      have hlen2 := processBatch_length (levelBatch hav db tgt gh m) m h2
      by_cases hret : (processBatch m (levelBatch hav db tgt gh m)).2
      · simp only [hret, if_true]
        exact ⟨hlook, hpres, hlen2.1⟩
      · simp only [Bool.not_eq_true] at hret
        simp only [hret, Bool.false_eq_true, if_false]
        apply ih gh.dropLast _ _ hlook hpres (hlen2.2 hret)
        rw [List.length_dropLast]
        omega

/-- The membership test of the for loop body (quality.py line 181). -/
def withinRadius (p : Nat × ℚ) : Bool := p.2 ≤ MAX_NEARBY_ZIPCODE_RADIUS_KM

theorem processBatch_run (l : List (Nat × ℚ)) :
    ∀ m : List (Nat × ℚ),
      (∀ p ∈ l, p.1 ∉ dictKeys m) →
      (l.map Prod.fst).Nodup →
      m.length < MAX_NUM_NEARBY_ZIPCODES →
      (processBatch m l).1 =
          m ++ (l.take (processBatchConsumed m l)).filter withinRadius ∧
        processBatchConsumed m l ≤ l.length ∧
        ((processBatch m l).2 = false →
          processBatchConsumed m l = l.length ∧
            (processBatch m l).1.length < MAX_NUM_NEARBY_ZIPCODES) ∧
        ((processBatch m l).2 = true →
          (processBatch m l).1.length = MAX_NUM_NEARBY_ZIPCODES ∧
            ∀ k < processBatchConsumed m l,
              (m ++ (l.take k).filter withinRadius).length <
                MAX_NUM_NEARBY_ZIPCODES) := by
  induction l with
  | nil =>
    intro m _ _ hlen
    refine ⟨by simp [processBatch, processBatchConsumed], by
      simp [processBatchConsumed], fun _ => ⟨rfl, by simpa [processBatch] using hlen⟩,
      fun hc => absurd hc (by simp [processBatch])⟩
  | cons q rest ih =>
    intro m hdisj hnd hlen
    obtain ⟨zid, d⟩ := q
    have hzid : zid ∉ dictKeys m := by
      have := hdisj (zid, d) (List.mem_cons_self _ _)
      simpa using this
    simp only [processBatch, processBatchConsumed]
    set m1 := if d ≤ MAX_NEARBY_ZIPCODE_RADIUS_KM then dictInsert m zid d else m
      with hm1def
    have hm1eq : m1 = m ++ [(zid, d)].filter withinRadius := by
      rw [hm1def]
      by_cases hd : d ≤ MAX_NEARBY_ZIPCODE_RADIUS_KM
      · rw [if_pos hd, dictInsert, if_neg hzid]
        simp [withinRadius, hd]
      · rw [if_neg hd]
        simp [withinRadius, hd]
    have hm1len : m1.length ≤ m.length + 1 := by
      rw [hm1def]; split
      · exact length_dictInsert m zid d
      · omega
    have hm1ge : m.length ≤ m1.length := by
      rw [hm1eq]; simp
    by_cases hcap : MAX_NUM_NEARBY_ZIPCODES ≤ m1.length
    · simp only [if_pos hcap]
      refine ⟨?_, by simp, fun hc => by simp at hc, fun _ => ⟨by omega, ?_⟩⟩
      · have ht1 : List.take 1 ((zid, d) :: rest) = [(zid, d)] := by simp
        rw [ht1]
        exact hm1eq
      · intro k hk
        interval_cases k
        simpa using hlen
    · simp only [if_neg hcap]
      have hcap' : m1.length < MAX_NUM_NEARBY_ZIPCODES := by omega
      have hdisj1 : ∀ p ∈ rest, p.1 ∉ dictKeys m1 := by
        intro p hp
        have h1 : p.1 ∉ dictKeys m := hdisj p (List.mem_cons_of_mem _ hp)
        have h2 : p.1 ≠ zid := by
          have := (List.nodup_cons.mp hnd).1
          intro hc
          exact this (hc ▸ List.mem_map.mpr ⟨p, hp, rfl⟩)
        rw [hm1eq, dictKeys, List.map_append]
        intro hc
        rcases List.mem_append.mp hc with h3 | h3
        · exact h1 h3
        · rcases List.mem_map.mp h3 with ⟨q, hq, hqe⟩
          have : q = (zid, d) := by
            rcases List.mem_filter.mp hq with ⟨hq1, _⟩
            simpa using hq1
          exact h2 (by rw [← hqe, this])
      have hnd1 : (rest.map Prod.fst).Nodup := (List.nodup_cons.mp hnd).2
      obtain ⟨ih1, ih2, ih3, ih4⟩ := ih m1 hdisj1 hnd1 hcap'
      have htake : ∀ j : Nat,
          m ++ (((zid, d) :: rest).take (j + 1)).filter withinRadius =
            m1 ++ (rest.take j).filter withinRadius := by
        intro j
        rw [List.take_succ_cons, List.filter_cons, hm1eq]
        by_cases hd : withinRadius (zid, d)
        · simp [hd, List.append_assoc]
        · simp only [Bool.not_eq_true] at hd
          simp [hd]
      refine ⟨?_, by rw [List.length_cons]; omega, ?_, ?_⟩
      · rw [Nat.add_comm 1 (processBatchConsumed m1 rest), htake]
        exact ih1
      · intro hfalse
        obtain ⟨he1, he2⟩ := ih3 hfalse
        exact ⟨by rw [he1, List.length_cons]; omega, he2⟩
      · intro htrue
        obtain ⟨he1, he2⟩ := ih4 htrue
        refine ⟨he1, ?_⟩
        intro k hk
        cases k with
        | zero => simpa using hlen
        | succ j =>
          rw [htake j]
          exact he2 j (by omega)

theorem levelQuery_sublist (db : List Zipcode) (gh : List Char)
    (m : List (Nat × ℚ)) : (levelQuery db gh m).Sublist db := by
  unfold levelQuery
  split
  · exact List.filter_sublist db
  · exact List.filter_sublist db

theorem levelBatch_keys_nodup (hav : ℚ → ℚ → ℚ → ℚ → ℚ) (db : List Zipcode)
    (tgt : Zipcode) (gh : List Char) (m : List (Nat × ℚ))
    (hdb : (db.map Zipcode.id).Nodup) :
    ((levelBatch hav db tgt gh m).map Prod.fst).Nodup := by
  have hperm : ((levelBatch hav db tgt gh m).map Prod.fst).Perm
      ((levelPairs hav db tgt gh m).map Prod.fst) :=
    (List.perm_insertionSort distLe (levelPairs hav db tgt gh m)).map Prod.fst
  rw [hperm.nodup_iff]
  unfold levelPairs
  rw [List.map_map]
  have : (Prod.fst ∘ fun r : Zipcode =>
      (r.id, hav r.longitude r.latitude tgt.longitude tgt.latitude)) =
      Zipcode.id := rfl
  rw [this]
  exact ((levelQuery_sublist db gh m).map Zipcode.id).nodup hdb

theorem levelBatch_disjoint (hav : ℚ → ℚ → ℚ → ℚ → ℚ) (db : List Zipcode)
    (tgt : Zipcode) (gh : List Char) (m : List (Nat × ℚ)) :
    ∀ p ∈ levelBatch hav db tgt gh m, p.1 ∉ dictKeys m := by
  by_cases hm : m = []
  · intro p _
    subst hm
    simp [dictKeys]
  · exact levelBatch_keys_not_mem hav db tgt gh m hm

/-- C2: within one geohash level, the matches are processed in ascending
order of their distance to the target (the processed batch is a sorted
permutation of the raw query-with-distance pairs); a considered match is
added exactly when its distance is within 150 km (the resulting map is the
input map followed by the within-radius part of the examined prefix of the
batch); if no early return happens the whole batch was examined and the map
is still below 200 entries, and if the early return happens the map has
exactly 200 entries and before each earlier considered match the map was
still below 200 entries, so the loop stopped at the first match that
brought it to the cap; when the early return fires, the outer while loop
of the search returns that map at once, visiting no further geohash
levels. -/
theorem level_processing_spec (hav : ℚ → ℚ → ℚ → ℚ → ℚ) (db : List Zipcode)
    (tgt : Zipcode) (gh : List Char) (m : List (Nat × ℚ))
    (hdb : (db.map Zipcode.id).Nodup)
    (hlen : m.length < MAX_NUM_NEARBY_ZIPCODES) :
    List.Pairwise (fun a b : Nat × ℚ => a.2 ≤ b.2)
        (levelBatch hav db tgt gh m) ∧
      (levelBatch hav db tgt gh m).Perm (levelPairs hav db tgt gh m) ∧
      (processBatch m (levelBatch hav db tgt gh m)).1 =
        m ++ ((levelBatch hav db tgt gh m).take
          (processBatchConsumed m (levelBatch hav db tgt gh m))).filter
            withinRadius ∧
      ((processBatch m (levelBatch hav db tgt gh m)).2 = false →
        processBatchConsumed m (levelBatch hav db tgt gh m) =
            (levelBatch hav db tgt gh m).length ∧
          (processBatch m (levelBatch hav db tgt gh m)).1.length <
            MAX_NUM_NEARBY_ZIPCODES) ∧
      ((processBatch m (levelBatch hav db tgt gh m)).2 = true →
        (processBatch m (levelBatch hav db tgt gh m)).1.length =
            MAX_NUM_NEARBY_ZIPCODES ∧
          ∀ k < processBatchConsumed m (levelBatch hav db tgt gh m),
            (m ++ ((levelBatch hav db tgt gh m).take k).filter
              withinRadius).length < MAX_NUM_NEARBY_ZIPCODES) ∧
      (gh ≠ [] → (processBatch m (levelBatch hav db tgt gh m)).2 = true →
        searchLoop hav db tgt gh m =
          (processBatch m (levelBatch hav db tgt gh m)).1) := by
  obtain ⟨h1, _, h3, h4⟩ := processBatch_run (levelBatch hav db tgt gh m) m
    (levelBatch_disjoint hav db tgt gh m)
    (levelBatch_keys_nodup hav db tgt gh m hdb) hlen
  refine ⟨?_, ?_, h1, h3, h4, ?_⟩
  · exact List.sorted_insertionSort distLe (levelPairs hav db tgt gh m)
  · exact List.perm_insertionSort distLe (levelPairs hav db tgt gh m)
  · intro hgh hret
    rw [searchLoop, dif_neg hgh]
    simp only [hret, if_true]

/-- C1: every map returned by _get_nearby_zipcodes contains the target id
with distance 0, every other entry has distance at most 150 km, and the map
has at most 200 entries. -/
theorem nearby_zipcodes_invariant (hav : ℚ → ℚ → ℚ → ℚ → ℚ)
    (db : List Zipcode) (tgt : Zipcode) :
    dictLookup (get_nearby_zipcodes hav db tgt) tgt.id = some 0 ∧
      (∀ p ∈ get_nearby_zipcodes hav db tgt,
        p.1 ≠ tgt.id → p.2 ≤ MAX_NEARBY_ZIPCODE_RADIUS_KM) ∧
      (get_nearby_zipcodes hav db tgt).length ≤ MAX_NUM_NEARBY_ZIPCODES := by
  unfold get_nearby_zipcodes
  have hinit : dictInsert ([] : List (Nat × ℚ)) tgt.id 0 = [(tgt.id, 0)] := by
    simp [dictInsert, dictKeys]
  rw [hinit]
  apply searchLoop_inv
  · rw [dictLookup_cons]
    simp
  · intro p hp hne
    simp only [List.mem_singleton] at hp
    subst hp
    exact absurd rfl hne
  · simp [MAX_NUM_NEARBY_ZIPCODES]

/-! Termination and the empty-geohash edge case. -/

theorem searchLoopIters_le_length (hav : ℚ → ℚ → ℚ → ℚ → ℚ)
    (db : List Zipcode) (tgt : Zipcode) :
    ∀ (gh : List Char) (m : List (Nat × ℚ)),
      searchLoopIters hav db tgt gh m ≤ gh.length := by
  suffices H : ∀ (n : Nat) (gh : List Char), gh.length ≤ n →
      ∀ m : List (Nat × ℚ), searchLoopIters hav db tgt gh m ≤ gh.length by
    intro gh m
    exact H gh.length gh le_rfl m
  intro n
  induction n with
  | zero =>
    intro gh hlen m
    have hgh : gh = [] := List.length_eq_zero.mp (Nat.le_zero.mp hlen)
    subst hgh
    rw [searchLoopIters, dif_pos rfl]
    exact Nat.zero_le _
  | succ n ih =>
    intro gh hlen m
    by_cases hgh : gh = []
    · subst hgh
      rw [searchLoopIters, dif_pos rfl]
      exact Nat.zero_le _
    · rw [searchLoopIters, dif_neg hgh]
      have hpos : 1 ≤ gh.length := by
        have : gh.length ≠ 0 := fun hc => hgh (List.length_eq_zero.mp hc)
        omega
      by_cases hret : (processBatch m (levelBatch hav db tgt gh m)).2
      · simp only [hret, if_true]
        exact hpos
      · simp only [Bool.not_eq_true] at hret
        simp only [hret, Bool.false_eq_true, if_false]
        have hrec := ih gh.dropLast (by rw [List.length_dropLast]; omega)
          (processBatch m (levelBatch hav db tgt gh m)).1
        rw [List.length_dropLast] at hrec
        omega

/-- C6: the geohash search loop always terminates; the number of outer
iterations is bounded by the length of the target geohash, because the
working geohash loses its last character each iteration and the loop exits
on the empty list. -/
theorem geohash_search_terminates (hav : ℚ → ℚ → ℚ → ℚ → ℚ)
    (db : List Zipcode) (tgt : Zipcode) :
    searchLoopIters hav db tgt tgt.geohash (dictInsert [] tgt.id 0) ≤
        tgt.geohash.length ∧
      (∀ (gh : List Char) (m : List (Nat × ℚ)),
        searchLoopIters hav db tgt gh m ≤ gh.length) ∧
      (∀ m : List (Nat × ℚ), searchLoop hav db tgt [] m = m) := by
  refine ⟨searchLoopIters_le_length hav db tgt tgt.geohash _,
    searchLoopIters_le_length hav db tgt, ?_⟩
  intro m
  rw [searchLoop, dif_pos rfl]

/-- C7: when the target geohash is the empty string the loop body never
runs and _get_nearby_zipcodes returns exactly the singleton map with the
target id at distance 0. -/
theorem empty_geohash_returns_self (hav : ℚ → ℚ → ℚ → ℚ → ℚ)
    (db : List Zipcode) (tgt : Zipcode) (h : tgt.geohash = []) :
    get_nearby_zipcodes hav db tgt = [(tgt.id, 0)] := by
  unfold get_nearby_zipcodes
  rw [h, searchLoop, dif_pos rfl]
  simp [dictInsert, dictKeys]

/-! Concrete sample inputs used by the witness theorems. -/

/-- A concrete stand-in distance function for witnesses. -/
def hav0 : ℚ → ℚ → ℚ → ℚ → ℚ :=
  fun lon1 lat1 lon2 lat2 => |lon1 - lon2| + |lat1 - lat2|

/-- A concrete target zip code row. -/
def tgt0 : Zipcode := ⟨1, 10, 20, ['a', 'b']⟩

/-- A concrete target zip code row with an empty geohash. -/
def tgtE : Zipcode := ⟨7, 0, 0, []⟩

/-- A concrete zipcodes table: two rows near tgt0 and one far away. -/
def db0 : List Zipcode :=
  [⟨2, 11, 21, ['a', 'b']⟩, ⟨3, 12, 22, ['a', 'c']⟩, ⟨4, 500, 500, ['a', 'b']⟩]

/-- A concrete geohash level. -/
def gh0 : List Char := ['a']

/-- A concrete collected map holding only the target. -/
def m0 : List (Nat × ℚ) := [(1, 0)]

theorem nearby_zipcodes_invariant_witness :
    dictLookup (get_nearby_zipcodes hav0 db0 tgt0) tgt0.id = some 0 ∧
      (∀ p ∈ get_nearby_zipcodes hav0 db0 tgt0,
        p.1 ≠ tgt0.id → p.2 ≤ MAX_NEARBY_ZIPCODE_RADIUS_KM) ∧
      (get_nearby_zipcodes hav0 db0 tgt0).length ≤ MAX_NUM_NEARBY_ZIPCODES :=
  nearby_zipcodes_invariant hav0 db0 tgt0

theorem level_processing_spec_witness :
    ((db0.map Zipcode.id).Nodup ∧ m0.length < MAX_NUM_NEARBY_ZIPCODES) ∧
      (List.Pairwise (fun a b : Nat × ℚ => a.2 ≤ b.2)
          (levelBatch hav0 db0 tgt0 gh0 m0) ∧
        (levelBatch hav0 db0 tgt0 gh0 m0).Perm
          (levelPairs hav0 db0 tgt0 gh0 m0) ∧
        (processBatch m0 (levelBatch hav0 db0 tgt0 gh0 m0)).1 =
          m0 ++ ((levelBatch hav0 db0 tgt0 gh0 m0).take
            (processBatchConsumed m0 (levelBatch hav0 db0 tgt0 gh0 m0))).filter
              withinRadius ∧
        ((processBatch m0 (levelBatch hav0 db0 tgt0 gh0 m0)).2 = false →
          processBatchConsumed m0 (levelBatch hav0 db0 tgt0 gh0 m0) =
              (levelBatch hav0 db0 tgt0 gh0 m0).length ∧
            (processBatch m0 (levelBatch hav0 db0 tgt0 gh0 m0)).1.length <
              MAX_NUM_NEARBY_ZIPCODES) ∧
        ((processBatch m0 (levelBatch hav0 db0 tgt0 gh0 m0)).2 = true →
          (processBatch m0 (levelBatch hav0 db0 tgt0 gh0 m0)).1.length =
              MAX_NUM_NEARBY_ZIPCODES ∧
            ∀ k < processBatchConsumed m0 (levelBatch hav0 db0 tgt0 gh0 m0),
              (m0 ++ ((levelBatch hav0 db0 tgt0 gh0 m0).take k).filter
                withinRadius).length < MAX_NUM_NEARBY_ZIPCODES) ∧
        (gh0 ≠ [] →
          (processBatch m0 (levelBatch hav0 db0 tgt0 gh0 m0)).2 = true →
          searchLoop hav0 db0 tgt0 gh0 m0 =
            (processBatch m0 (levelBatch hav0 db0 tgt0 gh0 m0)).1)) :=
  ⟨⟨by decide, by decide⟩,
    level_processing_spec hav0 db0 tgt0 gh0 m0 (by decide) (by decide)⟩

theorem empty_geohash_returns_self_witness :
    tgtE.geohash = [] ∧ get_nearby_zipcodes hav0 db0 tgtE = [(tgtE.id, 0)] :=
  ⟨rfl, empty_geohash_returns_self hav0 db0 tgtE rfl⟩

/-! The pollution category scale and the recommendation ranker
(quality.py lines 41-51 and 122-141). -/

/-- Modelled from the spec: the ordered PollutionCategory enumeration of
section 3 (Pm25 lives in airq/lib/readings.py, which is not among the
sources): Good < Moderate < UnhealthyForSensitiveGroups < Unhealthy <
VeryUnhealthy < Hazardous. -/
inductive Pm25 where
  | good
  | moderate
  | unhealthyForSensitiveGroups
  | unhealthy
  | veryUnhealthy
  | hazardous
deriving DecidableEq, Repr

/-- The position of a category on the ordered scale; comparisons between
Pm25 values in the source compare the underlying enum values, whose order
agrees with this rank. -/
def Pm25.rank : Pm25 → Nat
  | .good => 0
  | .moderate => 1
  | .unhealthyForSensitiveGroups => 2
  | .unhealthy => 3
  | .veryUnhealthy => 4
  | .hazardous => 5

/-- Modelled from the spec: Pm25.from_measurement (airq/lib/readings.py is
not among the sources) maps a concentration to a category via fixed
ascending EPA-style breakpoints; every value below the first breakpoint is
Good and the top category absorbs all values above its lower breakpoint. -/
def Pm25.from_measurement (v : ℚ) : Pm25 :=
  if v < 12 then .good
  else if v < 35 then .moderate
  else if v < 55 then .unhealthyForSensitiveGroups
  else if v < 150 then .unhealthy
  else if v < 250 then .veryUnhealthy
  else .hazardous

/-- Modelled from the spec: the user facing name of a category (the display
property of airq/lib/readings.py, not among the sources). -/
def Pm25.display : Pm25 → String
  | .good => "Good"
  | .moderate => "Moderate"
  | .unhealthyForSensitiveGroups => "Unhealthy for sensitive groups"
  | .unhealthy => "Unhealthy"
  | .veryUnhealthy => "Very unhealthy"
  | .hazardous => "Hazardous"

/-- The AirQualityMetrics dataclass of quality.py lines 41-51. -/
structure AirQualityMetrics where
  zipcode : String
  city_name : String
  distance : ℚ
  average_pm25 : ℚ
  num_readings : Nat
deriving DecidableEq, Repr

/-- The pm25_level property (quality.py lines 49-51). -/
def AirQualityMetrics.pm25_level (m : AirQualityMetrics) : Pm25 :=
  Pm25.from_measurement m.average_pm25

/-- The sort key comparison of quality.py line 133: Python tuple order on
(pm25_level, distance), the category first and the distance as tie break. -/
def recLe (a b : AirQualityMetrics) : Prop :=
  a.pm25_level.rank < b.pm25_level.rank ∨
    (a.pm25_level.rank = b.pm25_level.rank ∧ a.distance ≤ b.distance)

instance : DecidableRel recLe :=
  fun a b => inferInstanceAs (Decidable (_ ∨ _))

instance : IsTotal AirQualityMetrics recLe :=
  ⟨fun a b => by
    unfold recLe
    rcases Nat.lt_trichotomy a.pm25_level.rank b.pm25_level.rank with h | h | h
    · exact Or.inl (Or.inl h)
    · rcases le_total a.distance b.distance with h2 | h2
      · exact Or.inl (Or.inr ⟨h, h2⟩)
      · exact Or.inr (Or.inr ⟨h.symm, h2⟩)
    · exact Or.inr (Or.inl h)⟩

instance : IsTrans AirQualityMetrics recLe :=
  ⟨fun a b c hab hbc => by
    unfold recLe at *
    rcases hab with h1 | ⟨h1, h1d⟩ <;> rcases hbc with h2 | ⟨h2, h2d⟩
    · exact Or.inl (lt_trans h1 h2)
    · exact Or.inl (h2 ▸ h1)
    · exact Or.inl (h1 ▸ h2)
    · exact Or.inr ⟨h1.trans h2, le_trans h1d h2d⟩⟩

/-- The selection of quality.py lines 129-134: keep metrics of other zip
codes whose category is strictly better than the cutoff, sort them by
(category, distance) and take the first num_desired = 3. -/
def lower_pm25_metrics (metrics : List AirQualityMetrics) (zipcode : String)
    (pm25_cutoff : Pm25) : List AirQualityMetrics :=
  (List.insertionSort recLe (metrics.filter (fun m =>
    m.zipcode ≠ zipcode ∧ m.pm25_level.rank < pm25_cutoff.rank))).take 3

/-- _get_recommendations (quality.py lines 122-141): an empty message list
when nothing qualifies, otherwise a header line followed by one line per
selected metric. -/
def get_recommendations (metrics : List AirQualityMetrics) (zipcode : String)
    (pm25_cutoff : Pm25) : List String :=
  let selected := lower_pm25_metrics metrics zipcode pm25_cutoff
  if selected.isEmpty then []
  else
    "Try these other places near you for better air quality:" ::
      selected.map (fun m =>
        " - " ++ m.city_name ++ " " ++ m.zipcode ++ ": " ++ m.pm25_level.display)

/-! Concrete metrics for the recommendation ranker example. -/

/-- A neighbor in Good at distance 10. -/
def exGood : AirQualityMetrics := ⟨"11111", "Alpha", 10, 5, 4⟩

/-- A neighbor in Moderate at distance 1. -/
def exModerate : AirQualityMetrics := ⟨"22222", "Beta", 1, 20, 3⟩

/-- A neighbor in Unhealthy at distance 1/2. -/
def exUnhealthyNbr : AirQualityMetrics := ⟨"33333", "Gamma", 1/2, 60, 2⟩

/-- The target itself, in Unhealthy at distance 0. -/
def exTarget : AirQualityMetrics := ⟨"97204", "Portland", 0, 60, 5⟩

/-- The example neighborhood of the spec, section 8. -/
def exMetrics : List AirQualityMetrics :=
  [exTarget, exGood, exModerate, exUnhealthyNbr]

/-- C3: the selected recommendations are sorted ascending by the pair
(pollution category rank, distance) — the category is the primary key and
distance only breaks ties within a category — and on the example
neighborhood of the spec (target Unhealthy; Good at distance 10, Moderate
at distance 1, Unhealthy at distance 1/2) the output is the Good entry
followed by the Moderate one. -/
theorem recommendations_sorted :
    (∀ (metrics : List AirQualityMetrics) (zipcode : String)
        (pm25_cutoff : Pm25),
      List.Pairwise recLe (lower_pm25_metrics metrics zipcode pm25_cutoff)) ∧
      lower_pm25_metrics exMetrics "97204" Pm25.unhealthy =
        [exGood, exModerate] := by
  constructor
  · intro metrics zipcode pm25_cutoff
    unfold lower_pm25_metrics
    exact List.Pairwise.sublist (List.take_sublist 3 _)
      (List.sorted_insertionSort recLe _)
  · decide

/-- C4: the ranker selects at most 3 entries, never the target zip code,
and only entries in a strictly better category than the cutoff; on an
empty input it produces no messages rather than failing. -/
theorem recommendations_bounded (metrics : List AirQualityMetrics)
    (zipcode : String) (pm25_cutoff : Pm25) :
    (lower_pm25_metrics metrics zipcode pm25_cutoff).length ≤ 3 ∧
      (∀ m ∈ lower_pm25_metrics metrics zipcode pm25_cutoff,
        m.zipcode ≠ zipcode ∧ m.pm25_level.rank < pm25_cutoff.rank) ∧
      get_recommendations [] zipcode pm25_cutoff = [] := by
  refine ⟨?_, ?_, rfl⟩
  · unfold lower_pm25_metrics
    exact List.length_take_le 3 _
  · intro m hm
    unfold lower_pm25_metrics at hm
    have h1 : m ∈ List.insertionSort recLe (metrics.filter (fun m =>
        m.zipcode ≠ zipcode ∧ m.pm25_level.rank < pm25_cutoff.rank)) :=
      (List.take_sublist 3 _).mem hm
    have h2 := (List.mem_insertionSort recLe).mp h1
    have h3 := (List.mem_filter.mp h2).2
    simpa using h3

theorem recommendations_bounded_witness :
    (lower_pm25_metrics exMetrics "97204" Pm25.unhealthy).length ≤ 3 ∧
      (∀ m ∈ lower_pm25_metrics exMetrics "97204" Pm25.unhealthy,
        m.zipcode ≠ "97204" ∧ m.pm25_level.rank < Pm25.unhealthy.rank) ∧
      get_recommendations [] "97204" Pm25.unhealthy = [] :=
  recommendations_bounded exMetrics "97204" Pm25.unhealthy

/-- C8: the category classification is monotone — a larger concentration
never maps to a strictly better category — and the top category absorbs
every value at or above its lower breakpoint. -/
theorem pm25_classification_monotone :
    (∀ v1 v2 : ℚ, v1 < v2 →
        (Pm25.from_measurement v1).rank ≤ (Pm25.from_measurement v2).rank) ∧
      (∀ v : ℚ, 250 ≤ v → Pm25.from_measurement v = Pm25.hazardous) := by
  constructor
  · intro v1 v2 h
    unfold Pm25.from_measurement
    split_ifs <;> simp [Pm25.rank] <;> linarith
  · intro v hv
    unfold Pm25.from_measurement
    split_ifs <;> first | rfl | linarith

theorem pm25_classification_monotone_witness :
    ((5 : ℚ) < 20 ∧
        (Pm25.from_measurement 5).rank ≤ (Pm25.from_measurement 20).rank) ∧
      ((250 : ℚ) ≤ 300 ∧ Pm25.from_measurement 300 = Pm25.hazardous) :=
  ⟨⟨by norm_num, pm25_classification_monotone.1 5 20 (by norm_num)⟩,
    ⟨by norm_num, pm25_classification_monotone.2 300 (by norm_num)⟩⟩

/-! The metrics aggregator (quality.py lines 189-230). -/

/-- A row of the metrics table as used by the aggregator: owning zipcode
id, aggregated pm25 value, contributing sensor count, timestamp. -/
structure Metric where
  zipcode_id : Nat
  value : ℚ
  num_sensors : Nat
  timestamp : ℤ
deriving DecidableEq, Repr

/-- The subquery of quality.py lines 192-198: the maximum timestamp among
the metric rows of one zipcode id (SQL max over the group, bottom when the
group is empty). -/
def maxTs (store : List Metric) (zid : Nat) : WithBot ℤ :=
  ((store.filter (fun r => r.zipcode_id == zid)).map Metric.timestamp).maximum

/-- The join of quality.py lines 200-218: metric rows whose timestamp
equals the maximum for their zipcode id, restricted to the requested ids. -/
def joinedRows (store : List Metric) (zm : List (Nat × ℚ)) : List Metric :=
  store.filter (fun r =>
    r.zipcode_id ∈ dictKeys zm ∧
      maxTs store r.zipcode_id = (r.timestamp : WithBot ℤ))

/-- The AirQualityMetrics record built for one joined row (quality.py
lines 222-228); the zip code string and city name columns come from the
joined Zipcode and City rows, here a display function as in section 6 of
the spec (the ORM model modules are not among the sources). -/
def buildMetric (display : Nat → String × String) (zm : List (Nat × ℚ))
    (r : Metric) : AirQualityMetrics :=
  ⟨(display r.zipcode_id).1, (display r.zipcode_id).2,
    (dictLookup zm r.zipcode_id).getD 0, r.value, r.num_sensors⟩

/-- _get_air_quality_metrics_for_zipcodes (quality.py lines 189-230): fold
the joined rows into a dict keyed by zipcode id. -/
def get_air_quality_metrics_for_zipcodes (display : Nat → String × String)
    (store : List Metric) (zm : List (Nat × ℚ)) :
    List (Nat × AirQualityMetrics) :=
  (joinedRows store zm).foldl
    (fun acc r => dictInsert acc r.zipcode_id (buildMetric display zm r)) []

theorem dictLookup_dictInsert_self {α : Type} (m : List (Nat × α)) (k : Nat)
    (v : α) : dictLookup (dictInsert m k v) k = some v := by
  unfold dictInsert
  split
  · rename_i hmem
    induction m with
    | nil => simp [dictKeys] at hmem
    | cons q rest ih =>
      simp only [List.map_cons]
      rw [dictLookup_cons]
      by_cases hqk : q.1 = k
      · have h1 : (if q.1 = k then (k, v) else q) = (k, v) := by simp [hqk]
        rw [h1]
        simp
      · have h1 : (if q.1 = k then (k, v) else q) = q := by simp [hqk]
        rw [h1, if_neg hqk]
        apply ih
        simp only [dictKeys, List.map_cons, List.mem_cons] at hmem
        rcases hmem with h2 | h2
        · exact absurd h2.symm hqk
        · exact h2
  · induction m with
    | nil =>
      simp only [List.nil_append]
      rw [dictLookup_cons]
      simp
    | cons q rest ih =>
      rename_i hmem
      simp only [List.cons_append]
      rw [dictLookup_cons]
      have hqk : ¬(q.1 = k) := by
        intro hc
        exact hmem (by simp [dictKeys, hc])
      rw [if_neg hqk]
      apply ih
      intro hc
      apply hmem
      simp only [dictKeys, List.map_cons, List.mem_cons]
      right
      simpa [dictKeys] using hc

theorem mem_dictKeys_dictInsert {α : Type} (m : List (Nat × α)) (k : Nat)
    (v : α) (id : Nat) :
    id ∈ dictKeys (dictInsert m k v) ↔ id ∈ dictKeys m ∨ id = k := by
  rw [dictKeys_dictInsert]
  split
  · rename_i hmem
    constructor
    · exact Or.inl
    · rintro (h1 | rfl)
      · exact h1
      · exact hmem
  · simp

theorem aggFold_keys (display : Nat → String × String) (zm : List (Nat × ℚ))
    (L : List Metric) :
    ∀ (acc : List (Nat × AirQualityMetrics)) (id : Nat),
      id ∈ dictKeys (L.foldl
          (fun acc r => dictInsert acc r.zipcode_id (buildMetric display zm r))
          acc) ↔
        id ∈ dictKeys acc ∨ ∃ r ∈ L, r.zipcode_id = id := by
  induction L with
  | nil => intro acc id; simp
  | cons r L ih =>
    intro acc id
    simp only [List.foldl_cons]
    rw [ih]
    rw [mem_dictKeys_dictInsert]
    constructor
    · rintro ((h1 | h1) | ⟨r2, hr2, hre⟩)
      · exact Or.inl h1
      · exact Or.inr ⟨r, List.mem_cons_self _ _, h1.symm⟩
      · exact Or.inr ⟨r2, List.mem_cons_of_mem _ hr2, hre⟩
    · rintro (h1 | ⟨r2, hr2, hre⟩)
      · exact Or.inl (Or.inl h1)
      · rcases List.mem_cons.mp hr2 with h3 | h3
        · subst h3
          exact Or.inl (Or.inr hre.symm)
        · exact Or.inr ⟨r2, h3, hre⟩

theorem aggFold_lookup (display : Nat → String × String) (zm : List (Nat × ℚ))
    (L : List Metric) :
    ∀ (acc : List (Nat × AirQualityMetrics)) (id : Nat)
        (met : AirQualityMetrics),
      dictLookup (L.foldl
          (fun acc r => dictInsert acc r.zipcode_id (buildMetric display zm r))
          acc) id = some met →
        dictLookup acc id = some met ∨
          ∃ r ∈ L, r.zipcode_id = id ∧ met = buildMetric display zm r := by
  induction L with
  | nil => intro acc id met h; exact Or.inl h
  | cons r L ih =>
    intro acc id met h
    simp only [List.foldl_cons] at h
    rcases ih _ id met h with h1 | ⟨r2, hr2, hre, hme⟩
    · by_cases hid : id = r.zipcode_id
      · subst hid
        rw [dictLookup_dictInsert_self] at h1
        exact Or.inr ⟨r, List.mem_cons_self _ _, rfl, (Option.some_inj.mp h1).symm⟩
      · rw [dictLookup_dictInsert_ne _ _ _ _ hid] at h1
        exact Or.inl h1
    · exact Or.inr ⟨r2, List.mem_cons_of_mem _ hr2, hre, hme⟩

/-- C5: the aggregator result has a key for exactly those requested
zipcode ids that have at least one metric row (ids without rows are
silently dropped, never an error), each returned metric carries the
distance supplied in the input map, and its value and sensor count come
from a row of that id whose timestamp is maximal among the rows of the
id. -/
theorem metrics_aggregator_spec (display : Nat → String × String)
    (store : List Metric) (zm : List (Nat × ℚ)) :
    (∀ id : Nat,
      id ∈ dictKeys (get_air_quality_metrics_for_zipcodes display store zm) ↔
        (id ∈ dictKeys zm ∧ ∃ r ∈ store, r.zipcode_id = id)) ∧
      (∀ (id : Nat) (met : AirQualityMetrics),
        dictLookup (get_air_quality_metrics_for_zipcodes display store zm) id
            = some met →
          dictLookup zm id = some met.distance ∧
            ∃ r ∈ store, r.zipcode_id = id ∧ met.average_pm25 = r.value ∧
              met.num_readings = r.num_sensors ∧
              ∀ r2 ∈ store, r2.zipcode_id = id →
                r2.timestamp ≤ r.timestamp) := by
  constructor
  · intro id
    unfold get_air_quality_metrics_for_zipcodes
    rw [aggFold_keys]
    simp only [dictKeys, List.map_nil, List.not_mem_nil, false_or]
    constructor
    · rintro ⟨r, hr, hre⟩
      rcases List.mem_filter.mp hr with ⟨hrs, hcond⟩
      simp only [decide_eq_true_eq] at hcond
      exact ⟨hre ▸ hcond.1, r, hrs, hre⟩
    · rintro ⟨hkey, r0, hr0, hr0e⟩
      have hne : ((store.filter (fun r => r.zipcode_id == id)).map
          Metric.timestamp) ≠ [] := by
        intro hc
        have : r0.timestamp ∈ (store.filter
            (fun r => r.zipcode_id == id)).map Metric.timestamp :=
          List.mem_map.mpr ⟨r0, List.mem_filter.mpr ⟨hr0, by simp [hr0e]⟩, rfl⟩
        rw [hc] at this
        exact List.not_mem_nil _ this
      obtain ⟨t, ht⟩ : ∃ t : ℤ, ((store.filter
          (fun r => r.zipcode_id == id)).map Metric.timestamp).maximum = ↑t := by
        cases hm : ((store.filter
            (fun r => r.zipcode_id == id)).map Metric.timestamp).maximum with
        | bot => exact absurd (List.maximum_eq_bot.mp hm) hne
        | coe t => exact ⟨t, rfl⟩
      have htm := List.maximum_mem ht
      rcases List.mem_map.mp htm with ⟨r1, hr1f, hr1t⟩
      rcases List.mem_filter.mp hr1f with ⟨hr1s, hr1c⟩
      have hr1id : r1.zipcode_id = id := by simpa using hr1c
      refine ⟨r1, List.mem_filter.mpr ⟨hr1s, ?_⟩, hr1id⟩
      simp only [Bool.and_eq_true, decide_eq_true_eq]
      constructor
      · rw [hr1id]; exact hkey
      · rw [maxTs, hr1id, ht, hr1t]
  · intro id met h
    unfold get_air_quality_metrics_for_zipcodes at h
    rcases aggFold_lookup display zm (joinedRows store zm) [] id met h with
      h1 | ⟨r, hr, hre, hme⟩
    · rw [dictLookup_nil] at h1
      exact Option.noConfusion h1
    · rcases List.mem_filter.mp hr with ⟨hrs, hcond⟩
      simp only [Bool.and_eq_true, decide_eq_true_eq] at hcond
      have hkey : id ∈ dictKeys zm := hre ▸ hcond.1
      obtain ⟨d, hd⟩ : ∃ d : ℚ, dictLookup zm id = some d := by
        have := (dictLookup_isSome_iff_mem zm id).mpr hkey
        cases hl : dictLookup zm id with
        | none => rw [hl] at this; simp at this
        | some d => exact ⟨d, rfl⟩
      constructor
      · rw [hd]
        subst hme
        unfold buildMetric
        simp only
        rw [hre, hd]
        rfl
      · refine ⟨r, hrs, hre, by rw [hme]; rfl, by rw [hme]; rfl, ?_⟩
        intro r2 hr2 hr2id
        have hmax : ((store.filter (fun q => q.zipcode_id == id)).map
            Metric.timestamp).maximum = (r.timestamp : WithBot ℤ) := by
          have := hcond.2
          rw [maxTs, hre] at this
          exact this
        have hr2m : r2.timestamp ∈ (store.filter
            (fun q => q.zipcode_id == id)).map Metric.timestamp :=
          List.mem_map.mpr ⟨r2, List.mem_filter.mpr ⟨hr2, by simp [hr2id]⟩, rfl⟩
        exact List.le_maximum_of_mem hr2m hmax

/-- A concrete display function for witnesses. -/
def display0 : Nat → String × String := fun _ => ("97204", "Portland")

/-- A concrete metrics table: two rows for id 1, one for id 2. -/
def store0 : List Metric := [⟨1, 7, 2, 100⟩, ⟨1, 9, 3, 50⟩, ⟨2, 20, 1, 10⟩]

/-- A concrete requested candidate map: id 1 present in the store, id 3
absent from it. -/
def zm0 : List (Nat × ℚ) := [(1, 0), (3, 5)]

theorem metrics_aggregator_spec_witness :
    (∀ id : Nat,
      id ∈ dictKeys (get_air_quality_metrics_for_zipcodes display0 store0 zm0) ↔
        (id ∈ dictKeys zm0 ∧ ∃ r ∈ store0, r.zipcode_id = id)) ∧
      (∀ (id : Nat) (met : AirQualityMetrics),
        dictLookup (get_air_quality_metrics_for_zipcodes display0 store0 zm0) id
            = some met →
          dictLookup zm0 id = some met.distance ∧
            ∃ r ∈ store0, r.zipcode_id = id ∧ met.average_pm25 = r.value ∧
              met.num_readings = r.num_sensors ∧
              ∀ r2 ∈ store0, r2.zipcode_id = id →
                r2.timestamp ≤ r.timestamp) :=
  metrics_aggregator_spec display0 store0 zm0

/-! Client preferences (src/app/airq/lib/client_preferences.py). -/

/-- Python truthiness of an optional integer as evaluated by an `and`
chain: None and 0 are falsy, every other integer is truthy. -/
def truthy : Option ℤ → Bool
  | none => false
  | some x => x != 0

/-- The IntegerPreference state set up by its constructor
(client_preferences.py lines 182-198). -/
structure IntegerPreference where
  display_name : String
  description : String
  default : ℤ
  min_value : Option ℤ
  max_value : Option ℤ
deriving DecidableEq, Repr

/-- IntegerPreference.__init__ (client_preferences.py lines 183-198): store
the fields; when both bounds are truthy, run the range-validity guard of
line 195, which compares self._max_value with itself, and raise
RuntimeError when it fires. -/
def IntegerPreference.init (display_name description : String)
    (default : ℤ) (min_value max_value : Option ℤ) :
    Except String IntegerPreference :=
  if truthy min_value && truthy max_value then
    if max_value.getD 0 ≥ max_value.getD 0 then
      Except.error "Invalid min and max values"
    else Except.ok ⟨display_name, description, default, min_value, max_value⟩
  else Except.ok ⟨display_name, description, default, min_value, max_value⟩

/-- Whether a constructor run ended in a raised exception. -/
def raisesError {α : Type} : Except String α → Bool
  | .error _ => true
  | .ok _ => false

/-- C9: the constructor raises RuntimeError exactly when both bounds are
truthy — the self-comparison guard of line 195 fires for every such pair,
even well-ordered ones — and succeeds with no bound-consistency check
whenever either bound is None or 0. In particular the well-ordered pair
min 1, max 10 raises. -/
theorem integer_preference_guard :
    (∀ (display_name description : String) (default : ℤ)
        (min_value max_value : Option ℤ),
      raisesError (IntegerPreference.init display_name description default
          min_value max_value) =
        (truthy min_value && truthy max_value)) ∧
      raisesError (IntegerPreference.init "n" "d" 0 (some 1) (some 10)) =
        true := by
  constructor
  · intro display_name description default min_value max_value
    unfold IntegerPreference.init
    by_cases h : (truthy min_value && truthy max_value) = true
    · rw [if_pos h, if_pos le_rfl, h]
      rfl
    · rw [if_neg h]
      simp only [Bool.not_eq_true] at h
      rw [h]
      rfl
  · rfl

/-- ChoicesPreference.clean (client_preferences.py lines 151-159): parse
the user input with int(user_input), modelled by String.toInt?; a
non-positive index returns None, otherwise the input is a 1-based index
into the choices list and an out-of-range index (IndexError) returns
None. -/
def ChoicesPreference.clean {α : Type} (choices : List α)
    (user_input : String) : Option α :=
  match user_input.toInt? with
  | none => none
  | some idx => if idx ≤ 0 then none else choices.get? (idx.toNat - 1)

/-- C10: clean is total with no exception path: it returns the i-th choice
(1-based) exactly when the input parses as an integer i with 1 ≤ i ≤ number
of choices, and returns None exactly when the input does not parse, parses
non-positive, or parses beyond the number of choices. -/
theorem choices_clean_spec {α : Type} (choices : List α) (s : String) :
    (∀ c : α, ChoicesPreference.clean choices s = some c ↔
      ∃ i : ℤ, s.toInt? = some i ∧ 1 ≤ i ∧ i.toNat ≤ choices.length ∧
        choices.get? (i.toNat - 1) = some c) ∧
      (ChoicesPreference.clean choices s = none ↔
        (s.toInt? = none ∨ ∃ i : ℤ, s.toInt? = some i ∧
          (i ≤ 0 ∨ choices.length < i.toNat))) := by
  unfold ChoicesPreference.clean
  cases hp : s.toInt? with
  | none => simp
  | some i =>
    dsimp only
    by_cases hi : i ≤ 0
    · rw [if_pos hi]
      constructor
      · intro c
        constructor
        · intro hc
          exact Option.noConfusion hc
        · rintro ⟨i2, hi2, h1, _, _⟩
          obtain rfl := Option.some_inj.mp hi2
          omega
      · constructor
        · intro _
          exact Or.inr ⟨i, rfl, Or.inl hi⟩
        · intro _
          rfl
    · rw [if_neg hi]
      push_neg at hi
      have hipos : 1 ≤ i.toNat := by omega
      constructor
      · intro c
        constructor
        · intro hc
          refine ⟨i, rfl, by omega, ?_, hc⟩
          rcases List.get?_eq_some.mp hc with ⟨hlt, _⟩
          omega
        · rintro ⟨i2, hi2, h3, h4, hget⟩
          obtain rfl := Option.some_inj.mp hi2
          exact hget
      · constructor
        · intro hc
          refine Or.inr ⟨i, rfl, Or.inr ?_⟩
          have := List.get?_eq_none.mp hc
          omega
        · rintro (hc | ⟨i2, hi2, hc | hc⟩)
          · exact Option.noConfusion hc
          · obtain rfl := Option.some_inj.mp hi2
            omega
          · obtain rfl := Option.some_inj.mp hi2
            apply List.get?_eq_none.mpr
            omega

end Airq
